import Mathlib

/-!
Shallow embedding of the H.265 NAL byte-stream operations and the profile
selector from `gst/vaapi/gstvaapiencode_h265.c`.

Buffers are modelled as `List Nat` of byte values (each `< 256`); pointer
arithmetic becomes offset arithmetic on `Nat`, and the `guint32` sliding
window keeps an explicit `% 2^32`.
-/

namespace GstVaapiEncH265

/-- One step of the scan loop's 32-bit sliding window:
`flag = ((flag << 8) | ((*cur++) & 0xFF))` on a `guint32`. -/
def stepFlag (flag b : Nat) : Nat := (flag * 256 + b % 256) % 4294967296

/-- The `while (cur < end)` scan loop of `_h265_byte_stream_next_nal`.
`cur` is the running cursor offset (already incremented past each byte read,
as in the source); the result is the cursor position just after the byte
that completed a `00 00 01` match, together with the window value at that
point, or `none` if the loop runs off the end of the buffer. -/
def findNext (flag cur : Nat) : List Nat → Option (Nat × Nat)
  | [] => none
  | b :: bs =>
    let f := stepFlag flag b
    if f % 16777216 = 1 then some (cur + 1, f) else findNext f (cur + 1) bs

/-- The `/*locate head postion */` block of `_h265_byte_stream_next_nal`
(reached only with `len >= 3`): the recognized leading start-code width,
`0` when the buffer does not begin with a start code. -/
def nal_start_len (buf : List Nat) : Nat :=
  if buf.getD 0 0 = 0 ∧ buf.getD 1 0 = 0 then
    if buf.getD 2 0 = 1 then 3
    else if buf.getD 2 0 = 0 ∧ 4 ≤ buf.length ∧ buf.getD 3 0 = 1 then 4
    else 0
  else 0

/-- `_h265_byte_stream_next_nal (buffer, len, &nal_size)`, returning
`some (nal_start, nal_size)` as offsets/lengths, or `none` for a NULL
`nal_start`.  The entry assertion `g_assert (len != 0U ...)` is a glib
check; past it, a zero-length input yields a NULL result
(`nal_start = (len ? buffer : NULL)`). -/
def h265_byte_stream_next_nal (buf : List Nat) : Option (Nat × Nat) :=
  if buf.length < 3 then
    if buf.length = 0 then none else some (0, buf.length)
  else
    match findNext 4294967295 (nal_start_len buf) (buf.drop (nal_start_len buf)) with
    | some (cur, f) =>
      if buf.length ≤ cur then
        if buf.length ≤ nal_start_len buf then none
        else some (nal_start_len buf, buf.length - nal_start_len buf)
      else some (nal_start_len buf, cur - (if f = 1 then 4 else 3) - nal_start_len buf)
    | none =>
      if buf.length ≤ nal_start_len buf then none
      else some (nal_start_len buf, buf.length - nal_start_len buf)

/-- `_start_code_to_size`: the four bytes written over the start code,
the unit size as a big-endian 32-bit integer. -/
def start_code_to_size (nal_size : Nat) : List Nat :=
  [nal_size / 16777216 % 256, nal_size / 65536 % 256, nal_size / 256 % 256,
    nal_size % 256]

/-- Outcome of `_h265_convert_byte_stream_to_hvc`.  `ok` carries the final
buffer contents; `invalidBitstream` is the `goto error` path (returns FALSE
after a zero-size unit); `assertViolation` models the glib assertion
`g_assert (nal_body - nal_start_code == 4)` firing (program abort under the
default assertion configuration), which is distinct from the FALSE-returning
error path. -/
inductive ConvertResult where
  | ok : List Nat → ConvertResult
  | invalidBitstream : ConvertResult
  | assertViolation : ConvertResult
deriving DecidableEq

/-- The rewrite loop of `_h265_convert_byte_stream_to_hvc`, acting on the
remaining region of the buffer.  `fuel` is a structural-recursion bound;
each iteration consumes at least one byte of the region, so running it with
`fuel = buf.length` (as `h265_convert_byte_stream_to_hvc` does) realizes the
source's `while` loop exactly: the `fuel = 0` case is then only reachable
with an empty region, where the loop also stops. -/
def convertLoop : Nat → List Nat → ConvertResult
  | 0, buf => ConvertResult.ok buf
  | fuel + 1, buf =>
    match h265_byte_stream_next_nal buf with
    | none => ConvertResult.ok buf
    | some (off, sz) =>
      if sz = 0 then ConvertResult.invalidBitstream
      else if off = 4 then
        match convertLoop fuel (buf.drop (4 + sz)) with
        | ConvertResult.ok rest =>
          ConvertResult.ok (start_code_to_size sz ++ (buf.drop 4).take sz ++ rest)
        | e => e
      else ConvertResult.assertViolation

/-- `_h265_convert_byte_stream_to_hvc` on the mapped buffer bytes. -/
def h265_convert_byte_stream_to_hvc (buf : List Nat) : ConvertResult :=
  convertLoop buf.length buf

/-! ## Profile selector

Profiles are `Nat`s with `0 = GST_VAAPI_PROFILE_UNKNOWN` (the value the
source tests with `if (!profile)`).  The capability provider functions
`gst_vaapi_utils_h265_get_profile_from_string` (`identify`, `0` for an
unresolvable string) and `gst_vaapi_utils_h265_get_profile_score` (`score`)
live outside this file's repository slice and are passed as parameters, as
in the selector's contract. -/

/-- A `GValue` as far as the selector inspects it: a string value (whose
payload may be NULL), a value list, or anything else. -/
inductive GVal where
  | vstr : Option String → GVal
  | vlist : List GVal → GVal
  | vother : GVal

/-- A caps structure, reduced to its optional `"profile"` field (the only
field `find_best_profile` reads; `none` models
`gst_structure_get_value` returning NULL). -/
structure CapsStruct where
  profile : Option GVal

/-- The running-best accumulator `FindBestProfileData`. -/
structure FindBestProfileData where
  best_profile : Nat
  best_score : Nat

/-- `find_best_profile_value (data, value)`: skip NULL values, non-string
values, NULL strings and unresolvable strings; otherwise keep `data` only
when the candidate's score is strictly below the running best
(`if (score < data->best_score) return;`), else overwrite the best pair. -/
def find_best_profile_value (identify : String → Nat) (score : Nat → Nat)
    (data : FindBestProfileData) (value : Option GVal) : FindBestProfileData :=
  match value with
  | some (GVal.vstr (some s)) =>
    let profile := identify s
    if profile = 0 then data
    else
      let sc := score profile
      if sc < data.best_score then data
      else ⟨profile, sc⟩
  | _ => data

/-- The body of `find_best_profile`'s loop for one caps structure: a
string-typed profile field is fed to `find_best_profile_value` directly, a
list-typed one element-wise, a missing or otherwise-typed one is skipped. -/
def bestStep (identify : String → Nat) (score : Nat → Nat)
    (data : FindBestProfileData) (st : CapsStruct) : FindBestProfileData :=
  match st.profile with
  | some (GVal.vstr s) =>
    find_best_profile_value identify score data (some (GVal.vstr s))
  | some (GVal.vlist vs) =>
    vs.foldl (fun d v => find_best_profile_value identify score d (some v)) data
  | _ => data

/-- The accumulator state after `find_best_profile`'s loop over all caps
structures, starting from `(GST_VAAPI_PROFILE_UNKNOWN, 0)`. -/
def bestData (identify : String → Nat) (score : Nat → Nat)
    (caps : List CapsStruct) : FindBestProfileData :=
  caps.foldl (bestStep identify score) ⟨0, 0⟩

/-- `find_best_profile (caps)`: the best profile after the loop. -/
def find_best_profile (identify : String → Nat) (score : Nat → Nat)
    (caps : List CapsStruct) : Nat :=
  (bestData identify score caps).best_profile

/-- The profile strings a caps structure contributes as candidates: a
string-typed `"profile"` field with non-NULL payload contributes itself; a
list-typed field contributes its string-typed, non-NULL elements. -/
def candidateStrings (st : CapsStruct) : List String :=
  match st.profile with
  | some (GVal.vstr (some s)) => [s]
  | some (GVal.vlist vs) =>
    vs.filterMap (fun v =>
      match v with
      | GVal.vstr (some s) => some s
      | _ => none)
  | _ => []

/-! ## Byte-stream well-formedness -/

/-- Does a byte list contain the `00 00 01` start-code pattern as a
contiguous subsegment? -/
def hasStartCode : List Nat → Bool
  | a :: b :: c :: rest => (a == 0 && b == 0 && c == 1) || hasStartCode (b :: c :: rest)
  | _ => false

/-- A well-formed byte-stream payload list: every NAL payload is nonempty,
consists of bytes, contains no start-code pattern (emulation prevention),
and its length is representable in the 4-byte length field. -/
def wellFormed (ps : List (List Nat)) : Prop :=
  ∀ p ∈ ps, p ≠ [] ∧ (∀ b ∈ p, b < 256) ∧ hasStartCode p = false ∧
    p.length < 4294967296

instance (ps : List (List Nat)) : Decidable (wellFormed ps) := by
  unfold wellFormed; infer_instance

/-- The byte-stream buffer with the given payloads, each preceded by a
4-byte start code. -/
def byteStream (ps : List (List Nat)) : List Nat :=
  (ps.map (fun p => 0 :: 0 :: 0 :: 1 :: p)).flatten

/-- The corresponding length-prefixed (hvcC) buffer: each payload preceded
by its length as a 4-byte big-endian field. -/
def hvcStream (ps : List (List Nat)) : List Nat :=
  (ps.map (fun p => start_code_to_size p.length ++ p)).flatten

/-- The window value after scanning a whole byte list. -/
def runFlag (flag : Nat) (l : List Nat) : Nat := l.foldl stepFlag flag

/-- `noMatchScan flag l`: scanning `l` from window state `flag`, the low
three window bytes never equal `00 00 01`. -/
def noMatchScan (flag : Nat) : List Nat → Bool
  | [] => true
  | b :: bs => (stepFlag flag b % 16777216 != 1) && noMatchScan (stepFlag flag b) bs

/-- A sample capability provider for concrete selector runs:
`"a" ↦ 1`, `"b" ↦ 2`, `"c" ↦ 3`, everything else unresolvable. -/
def sampleIdentify : String → Nat := fun s =>
  if s = "a" then 1 else if s = "b" then 2 else if s = "c" then 3 else 0

/-- Sample provider ranks: profiles 1 and 2 score 5, profile 3 scores 3
(candidate ranks `[5, 5, 3]`). -/
def sampleScore : Nat → Nat := fun pr => if pr = 3 then 3 else 5

/-! ## Sliding-window arithmetic -/

theorem stepFlag_mod24 (flag b : Nat) :
    stepFlag flag b % 16777216 = flag % 65536 * 256 + b % 256 := by
  unfold stepFlag; omega

theorem stepFlag_mod16 (flag b : Nat) :
    stepFlag flag b % 65536 = flag % 256 * 256 + b % 256 := by
  unfold stepFlag; omega

theorem stepFlag_mod8 (flag b : Nat) : stepFlag flag b % 256 = b % 256 := by
  unfold stepFlag; omega

theorem stepFlag_lt (flag b : Nat) : stepFlag flag b < 4294967296 := by
  unfold stepFlag; omega

theorem runFlag_nil (flag : Nat) : runFlag flag [] = flag := rfl

theorem runFlag_cons (flag b : Nat) (l : List Nat) :
    runFlag flag (b :: l) = runFlag (stepFlag flag b) l := rfl

theorem runFlag_append (flag : Nat) (l l' : List Nat) :
    runFlag flag (l ++ l') = runFlag (runFlag flag l) l' := by
  simp [runFlag, List.foldl_append]

theorem findNext_append_of_noMatch (l : List Nat) :
    ∀ flag cur (l' : List Nat), noMatchScan flag l = true →
      findNext flag cur (l ++ l') = findNext (runFlag flag l) (cur + l.length) l' := by
  induction l with
  | nil => intro flag cur l' _; simp [runFlag_nil]
  | cons b bs ih =>
    intro flag cur l' h
    simp only [noMatchScan, Bool.and_eq_true, bne_iff_ne, ne_eq] at h
    simp only [List.cons_append, findNext, List.append_eq]
    rw [if_neg h.1, ih _ _ _ h.2, runFlag_cons]
    congr 1
    simp [Nat.add_comm, Nat.add_assoc, Nat.add_left_comm]

theorem findNext_none_of_noMatch (l : List Nat) (flag cur : Nat)
    (h : noMatchScan flag l = true) : findNext flag cur l = none := by
  have h2 := findNext_append_of_noMatch l flag cur [] h
  simpa using h2

theorem findNext_cons_match (flag cur b : Nat) (bs : List Nat)
    (h : stepFlag flag b % 16777216 = 1) :
    findNext flag cur (b :: bs) = some (cur + 1, stepFlag flag b) := by
  simp [findNext, h]

theorem hasStartCode_tail {a : Nat} {l : List Nat}
    (h : hasStartCode (a :: l) = false) : hasStartCode l = false := by
  match l with
  | [] => rfl
  | [x] => rfl
  | x :: y :: t =>
    simp only [hasStartCode, Bool.or_eq_false_iff] at h
    exact h.2

theorem hasStartCode_append3 :
    ∀ p : List Nat, hasStartCode p = false → hasStartCode (p ++ [0, 0, 0]) = false
  | [], _ => by simp [hasStartCode]
  | [a], _ => by simp [hasStartCode]
  | [a, b], _ => by simp [hasStartCode]
  | a :: b :: c :: t, h => by
    simp only [hasStartCode, Bool.or_eq_false_iff] at h
    have ih := hasStartCode_append3 (b :: c :: t) h.2
    simp only [List.cons_append] at ih ⊢
    simp [hasStartCode, h.1, ih]

theorem hasStartCode_append2 :
    ∀ p : List Nat, hasStartCode p = false → hasStartCode (p ++ [0, 0]) = false
  | [], _ => by simp [hasStartCode]
  | [a], _ => by simp [hasStartCode]
  | [a, b], _ => by simp [hasStartCode]
  | a :: b :: c :: t, h => by
    simp only [hasStartCode, Bool.or_eq_false_iff] at h
    have ih := hasStartCode_append2 (b :: c :: t) h.2
    simp only [List.cons_append] at ih ⊢
    simp [hasStartCode, h.1, ih]

/-- Core no-false-match lemma: scanning a byte list that contains no
start-code pattern never fires the `00 00 01` window test, provided the
incoming window state cannot complete a match with the list's first one or
two bytes. -/
theorem noMatchScan_of_clean :
    ∀ (p : List Nat) (flag : Nat),
      (∀ b ∈ p, b < 256) → hasStartCode p = false →
      (flag % 65536 = 0 → p.head? ≠ some 1) →
      (flag % 256 = 0 → ¬(p.head? = some 0 ∧ p.tail.head? = some 1)) →
      noMatchScan flag p = true
  | [], _, _, _, _, _ => rfl
  | b :: bs, flag, hb, hc, h1, h2 => by
    have hb0 : b < 256 := hb b (by simp)
    have hnm : stepFlag flag b % 16777216 ≠ 1 := by
      rw [stepFlag_mod24]
      intro he
      have hf : flag % 65536 = 0 := by omega
      have hbb : b = 1 := by omega
      exact h1 hf (by simp [hbb])
    have h1' : stepFlag flag b % 65536 = 0 → bs.head? ≠ some 1 := by
      intro hf h1s
      rw [stepFlag_mod16] at hf
      have hfl : flag % 256 = 0 := by omega
      have hbz : b = 0 := by omega
      exact h2 hfl (by simp [hbz, h1s])
    have h2' : stepFlag flag b % 256 = 0 →
        ¬(bs.head? = some 0 ∧ bs.tail.head? = some 1) := by
      intro hf hpair
      rw [stepFlag_mod8] at hf
      have hbz : b = 0 := by omega
      match bs, hpair with
      | x :: t, hpair =>
        simp only [List.head?_cons, Option.some.injEq, List.tail_cons] at hpair
        match t, hpair with
        | y :: t', hpair =>
          simp only [List.head?_cons, Option.some.injEq] at hpair
          rw [hbz, hpair.1, hpair.2] at hc
          simp [hasStartCode] at hc
    have hrec : noMatchScan (stepFlag flag b) bs = true :=
      noMatchScan_of_clean bs (stepFlag flag b)
        (fun x hx => hb x (by simp [hx])) (hasStartCode_tail hc) h1' h2'
    simp only [noMatchScan, Bool.and_eq_true, bne_iff_ne, ne_eq]
    exact ⟨hnm, hrec⟩

theorem runFlag_append3_mod24 (flag : Nat) (p : List Nat) :
    runFlag flag (p ++ [0, 0, 0]) % 16777216 = 0 := by
  rw [runFlag_append]
  show stepFlag (stepFlag (stepFlag (runFlag flag p) 0) 0) 0 % 16777216 = 0
  rw [stepFlag_mod24, stepFlag_mod16, stepFlag_mod8]

theorem runFlag_append3_lt (flag : Nat) (p : List Nat) :
    runFlag flag (p ++ [0, 0, 0]) < 4294967296 := by
  rw [runFlag_append]
  exact stepFlag_lt _ _

theorem stepFlag_one_of_mod24 (F : Nat) (hF : F % 16777216 = 0)
    (hlt : F < 4294967296) : stepFlag F 1 = 1 := by
  unfold stepFlag; omega

/-- Scanning a clean payload followed by a 4-byte start code: the first
match fires exactly on the start code's final `01` byte, with the full
window equal to `00 00 00 01`. -/
theorem findNext_payload4 (p r : List Nat) (cur : Nat)
    (hb : ∀ b ∈ p, b < 256) (hc : hasStartCode p = false) :
    findNext 4294967295 cur (p ++ 0 :: 0 :: 0 :: 1 :: r) =
      some (cur + p.length + 4, 1) := by
  have hrw : p ++ 0 :: 0 :: 0 :: 1 :: r = (p ++ [0, 0, 0]) ++ 1 :: r := by simp
  rw [hrw]
  have hbb : ∀ b ∈ p ++ [0, 0, 0], b < 256 := by
    intro b hbm
    rcases List.mem_append.1 hbm with h | h
    · exact hb b h
    · simp only [List.mem_cons, List.not_mem_nil, or_false] at h
      rcases h with h | h | h <;> omega
  have hcc : hasStartCode (p ++ [0, 0, 0]) = false := hasStartCode_append3 p hc
  have hnm : noMatchScan 4294967295 (p ++ [0, 0, 0]) = true := by
    apply noMatchScan_of_clean _ _ hbb hcc
    · intro h; exact absurd h (by decide)
    · intro h; exact absurd h (by decide)
  rw [findNext_append_of_noMatch _ _ _ _ hnm]
  have hF24 := runFlag_append3_mod24 4294967295 p
  have hFlt := runFlag_append3_lt 4294967295 p
  have hone := stepFlag_one_of_mod24 _ hF24 hFlt
  rw [findNext_cons_match _ _ _ _ (by rw [hone])]
  rw [hone]
  have hlen : cur + (p ++ [0, 0, 0]).length + 1 = cur + p.length + 4 := by
    simp only [List.length_append, List.length_cons, List.length_nil]
    omega
  rw [hlen]

theorem runFlag_append2_mod24 (flag : Nat) (p : List Nat) :
    runFlag flag (p ++ [0, 0]) % 16777216 = runFlag flag p % 256 * 65536 := by
  rw [runFlag_append]
  show stepFlag (stepFlag (runFlag flag p) 0) 0 % 16777216 = _
  rw [stepFlag_mod24, stepFlag_mod16]
  omega

theorem runFlag_append2_lt (flag : Nat) (p : List Nat) :
    runFlag flag (p ++ [0, 0]) < 4294967296 := by
  rw [runFlag_append]
  exact stepFlag_lt _ _

theorem runFlag_concat_mod8 (flag a : Nat) (q : List Nat) :
    runFlag flag (q ++ [a]) % 256 = a % 256 := by
  rw [runFlag_append]
  show stepFlag (runFlag flag q) a % 256 = a % 256
  exact stepFlag_mod8 _ _

theorem stepFlag_match_ne_one (F a : Nat) (h24 : F % 16777216 = a * 65536)
    (ha : a ≠ 0) (ha' : a < 256) (hlt : F < 4294967296) :
    stepFlag F 1 % 16777216 = 1 ∧ stepFlag F 1 ≠ 1 := by
  unfold stepFlag
  constructor <;> omega

/-- Scanning a clean payload that does not end in a zero byte, followed by
a 3-byte start code: the first match fires on the start code's final `01`
byte, and the window is then not the full `00 00 00 01` pattern. -/
theorem findNext_payload3 (p r : List Nat) (cur : Nat)
    (hb : ∀ b ∈ p, b < 256) (hc : hasStartCode p = false) (hne : p ≠ [])
    (hlast : p.getLast? ≠ some 0) :
    ∃ f, findNext 4294967295 cur (p ++ 0 :: 0 :: 1 :: r) =
      some (cur + p.length + 3, f) ∧ f ≠ 1 := by
  have hrw : p ++ 0 :: 0 :: 1 :: r = (p ++ [0, 0]) ++ 1 :: r := by simp
  rw [hrw]
  have hbb : ∀ b ∈ p ++ [0, 0], b < 256 := by
    intro b hbm
    rcases List.mem_append.1 hbm with h | h
    · exact hb b h
    · simp only [List.mem_cons, List.not_mem_nil, or_false] at h
      rcases h with h | h <;> omega
  have hcc : hasStartCode (p ++ [0, 0]) = false := hasStartCode_append2 p hc
  have hnm : noMatchScan 4294967295 (p ++ [0, 0]) = true := by
    apply noMatchScan_of_clean _ _ hbb hcc
    · intro h; exact absurd h (by decide)
    · intro h; exact absurd h (by decide)
  rw [findNext_append_of_noMatch _ _ _ _ hnm]
  rcases List.eq_nil_or_concat p with rfl | ⟨q, a, rfl⟩
  · exact absurd rfl hne
  simp only [List.concat_eq_append] at hb hc hne hlast hnm ⊢
  have hlast' : (q ++ [a]).getLast? = some a := by
    simp [List.getLast?_concat]
  rw [hlast'] at hlast
  have haz : a ≠ 0 := by
    intro h; exact hlast (by rw [h])
  have halt : a < 256 := hb a (by simp)
  have h24 : runFlag 4294967295 (q ++ [a] ++ [0, 0]) % 16777216 = a % 256 * 65536 := by
    rw [runFlag_append2_mod24, runFlag_concat_mod8]
  rw [Nat.mod_eq_of_lt halt] at h24
  have hlt := runFlag_append2_lt 4294967295 (q ++ [a])
  have hm := stepFlag_match_ne_one _ _ h24 haz halt hlt
  refine ⟨stepFlag (runFlag 4294967295 (q ++ [a] ++ [0, 0])) 1, ?_, hm.2⟩
  rw [findNext_cons_match _ _ _ _ hm.1]
  have heq : cur + (q ++ [a] ++ [0, 0]).length + 1 = cur + (q ++ [a]).length + 3 := by
    simp only [List.length_append, List.length_cons, List.length_nil]
    omega
  rw [heq]

/-! ## Scanner evaluation lemmas -/

theorem nal_start_len_4 (rest : List Nat) :
    nal_start_len (0 :: 0 :: 0 :: 1 :: rest) = 4 := by
  simp [nal_start_len, Nat.le_add_left]

theorem nal_start_len_3 (rest : List Nat) :
    nal_start_len (0 :: 0 :: 1 :: rest) = 3 := by
  simp [nal_start_len]

/-- Unfolding the scanner on a buffer with a 4-byte start code at its head
and a nonempty remainder. -/
theorem nextNal_4head (rest : List Nat) (hne : rest ≠ []) :
    h265_byte_stream_next_nal (0 :: 0 :: 0 :: 1 :: rest) =
      match findNext 4294967295 4 rest with
      | some (cur, f) =>
        if rest.length + 4 ≤ cur then some (4, rest.length)
        else some (4, cur - (if f = 1 then 4 else 3) - 4)
      | none => some (4, rest.length) := by
  have hrl : 1 ≤ rest.length := by
    cases rest with
    | nil => exact absurd rfl hne
    | cons x t => simp
  have hlen : (0 :: 0 :: 0 :: 1 :: rest).length = rest.length + 4 := by simp
  have hdrop : (0 :: 0 :: 0 :: 1 :: rest).drop 4 = rest := rfl
  unfold h265_byte_stream_next_nal
  rw [nal_start_len_4, hlen, hdrop, if_neg (by omega)]
  cases hf : findNext 4294967295 4 rest with
  | none =>
    dsimp only
    rw [if_neg (by omega)]
    have he : rest.length + 4 - 4 = rest.length := by omega
    rw [he]
  | some cf =>
    rcases cf with ⟨cur, f⟩
    dsimp only
    by_cases hcur : rest.length + 4 ≤ cur
    · rw [if_pos hcur, if_pos hcur, if_neg (by omega)]
      have he : rest.length + 4 - 4 = rest.length := by omega
      rw [he]
    · rw [if_neg hcur, if_neg hcur]

/-- Unfolding the scanner on a buffer with a 3-byte start code at its head
and a nonempty remainder. -/
theorem nextNal_3head (rest : List Nat) (hne : rest ≠ []) :
    h265_byte_stream_next_nal (0 :: 0 :: 1 :: rest) =
      match findNext 4294967295 3 rest with
      | some (cur, f) =>
        if rest.length + 3 ≤ cur then some (3, rest.length)
        else some (3, cur - (if f = 1 then 4 else 3) - 3)
      | none => some (3, rest.length) := by
  have hrl : 1 ≤ rest.length := by
    cases rest with
    | nil => exact absurd rfl hne
    | cons x t => simp
  have hlen : (0 :: 0 :: 1 :: rest).length = rest.length + 3 := by simp
  have hdrop : (0 :: 0 :: 1 :: rest).drop 3 = rest := rfl
  unfold h265_byte_stream_next_nal
  rw [nal_start_len_3, hlen, hdrop, if_neg (by omega)]
  cases hf : findNext 4294967295 3 rest with
  | none =>
    dsimp only
    rw [if_neg (by omega)]
    have he : rest.length + 3 - 3 = rest.length := by omega
    rw [he]
  | some cf =>
    rcases cf with ⟨cur, f⟩
    dsimp only
    by_cases hcur : rest.length + 3 ≤ cur
    · rw [if_pos hcur, if_pos hcur, if_neg (by omega)]
      have he : rest.length + 3 - 3 = rest.length := by omega
      rw [he]
    · rw [if_neg hcur, if_neg hcur]

/-- The scanner on the last unit of a well-formed stream: a 4-byte start
code followed by a clean nonempty payload reaching the buffer end. -/
theorem nextNal_last (p : List Nat) (hb : ∀ b ∈ p, b < 256)
    (hc : hasStartCode p = false) (hne : p ≠ []) :
    h265_byte_stream_next_nal (0 :: 0 :: 0 :: 1 :: p) = some (4, p.length) := by
  rw [nextNal_4head p hne]
  have hnm : noMatchScan 4294967295 p = true := by
    apply noMatchScan_of_clean _ _ hb hc
    · intro h; exact absurd h (by decide)
    · intro h; exact absurd h (by decide)
  rw [findNext_none_of_noMatch _ _ _ hnm]

/-- The scanner on a non-final unit of a well-formed stream: a 4-byte start
code, a clean nonempty payload, then the next unit's 4-byte start code and
a nonempty remainder. -/
theorem nextNal_mid (p s : List Nat) (hb : ∀ b ∈ p, b < 256)
    (hc : hasStartCode p = false) (hs : s ≠ []) :
    h265_byte_stream_next_nal (0 :: 0 :: 0 :: 1 :: (p ++ 0 :: 0 :: 0 :: 1 :: s)) =
      some (4, p.length) := by
  have hne : p ++ 0 :: 0 :: 0 :: 1 :: s ≠ [] := by
    cases p <;> simp
  rw [nextNal_4head _ hne]
  rw [findNext_payload4 p s 4 hb hc]
  have hsl : 1 ≤ s.length := by
    cases s with
    | nil => exact absurd rfl hs
    | cons x t => simp
  have hlen : (p ++ 0 :: 0 :: 0 :: 1 :: s).length = p.length + s.length + 4 := by
    simp only [List.length_append, List.length_cons]
    omega
  rw [hlen]
  dsimp only
  rw [if_neg (by omega), if_pos rfl]
  have he : 4 + p.length + 4 - 4 - 4 = p.length := by omega
  rw [he]

/-! ## Rewrite-loop correctness on well-formed streams -/

theorem nextNal_nil : h265_byte_stream_next_nal [] = none := rfl

theorem convertLoop_nil (fuel : Nat) : convertLoop fuel [] = ConvertResult.ok [] := by
  cases fuel <;> rfl

theorem start_code_to_size_length (n : Nat) : (start_code_to_size n).length = 4 := rfl

theorem byteStream_cons (p : List Nat) (ps : List (List Nat)) :
    byteStream (p :: ps) = 0 :: 0 :: 0 :: 1 :: (p ++ byteStream ps) := by
  simp [byteStream]

theorem hvcStream_cons (p : List Nat) (ps : List (List Nat)) :
    hvcStream (p :: ps) = start_code_to_size p.length ++ (p ++ hvcStream ps) := by
  simp [hvcStream]

theorem stream_length_eq :
    ∀ ps : List (List Nat), (hvcStream ps).length = (byteStream ps).length
  | [] => rfl
  | p :: ps => by
    have ih := stream_length_eq ps
    rw [byteStream_cons, hvcStream_cons]
    simp only [List.length_append, List.length_cons, start_code_to_size_length]
    omega

/-- The scanner applied to a well-formed stream's buffer reports the first
unit: payload offset 4 and payload size. -/
theorem nextNal_stream (p : List Nat) (ps' : List (List Nat))
    (hpb : ∀ b ∈ p, b < 256) (hpc : hasStartCode p = false) (hpne : p ≠ [])
    (hwf' : wellFormed ps') :
    h265_byte_stream_next_nal (byteStream (p :: ps')) = some (4, p.length) := by
  rw [byteStream_cons]
  cases ps' with
  | nil =>
    have : p ++ byteStream [] = p := by simp [byteStream]
    rw [this]
    exact nextNal_last p hpb hpc hpne
  | cons q ps'' =>
    obtain ⟨hqne, _, _, _⟩ := hwf' q (by simp)
    rw [byteStream_cons q ps'']
    apply nextNal_mid p (q ++ byteStream ps'') hpb hpc
    cases q with
    | nil => exact absurd rfl hqne
    | cons x t => simp

/-- The rewrite loop maps a well-formed byte stream to the corresponding
length-prefixed stream, given enough fuel (`fuel = buffer length` at the
top level; each iteration consumes at least 5 bytes of the region). -/
theorem convertLoop_stream :
    ∀ (ps : List (List Nat)) (fuel : Nat), wellFormed ps →
      (byteStream ps).length ≤ fuel →
      convertLoop fuel (byteStream ps) = ConvertResult.ok (hvcStream ps)
  | [], fuel, _, _ => by
    have h : byteStream [] = [] := rfl
    rw [h, convertLoop_nil]
    rfl
  | p :: ps', fuel, hwf, hfuel => by
    obtain ⟨hpne, hpb, hpc, hplen⟩ := hwf p (by simp)
    have hwf' : wellFormed ps' := fun q hq => hwf q (by simp [hq])
    have hplen1 : 1 ≤ p.length := by
      cases p with
      | nil => exact absurd rfl hpne
      | cons x t => simp
    have hlen : (byteStream (p :: ps')).length =
        4 + p.length + (byteStream ps').length := by
      rw [byteStream_cons]
      simp only [List.length_cons, List.length_append]
      omega
    cases fuel with
    | zero => omega
    | succ f =>
      have hscan := nextNal_stream p ps' hpb hpc hpne hwf'
      have hdrop4 : (byteStream (p :: ps')).drop 4 = p ++ byteStream ps' := by
        rw [byteStream_cons]
        rfl
      have hdrop : (byteStream (p :: ps')).drop (4 + p.length) = byteStream ps' := by
        rw [byteStream_cons]
        have h4 : 4 + p.length = p.length + 1 + 1 + 1 + 1 := by omega
        rw [h4]
        simp only [List.drop_succ_cons]
        exact List.drop_left p (byteStream ps')
      have hih : convertLoop f (byteStream ps') = ConvertResult.ok (hvcStream ps') :=
        convertLoop_stream ps' f hwf' (by omega)
      show convertLoop (f + 1) (byteStream (p :: ps')) = _
      unfold convertLoop
      rw [hscan]
      dsimp only
      rw [if_neg (by omega), if_pos rfl, hdrop, hih]
      dsimp only
      rw [hdrop4, List.take_left]
      rw [hvcStream_cons, List.append_assoc]

/-- C1: on a well-formed byte-stream buffer of N NAL units, each preceded
by a 4-byte start code and with nonzero clean payloads, the rewrite
succeeds, replaces each start code in place by the payload length as a
4-byte big-endian field, keeps every payload byte-identical in order, and
preserves the total length. -/
theorem convert_wellformed_ok (ps : List (List Nat)) (h : wellFormed ps) :
    h265_convert_byte_stream_to_hvc (byteStream ps) = ConvertResult.ok (hvcStream ps) ∧
    (hvcStream ps).length = (byteStream ps).length :=
  ⟨convertLoop_stream ps (byteStream ps).length h le_rfl, stream_length_eq ps⟩

/-- Witness for C1, the spec's end-to-end scenario:
`00 00 00 01 AA BB 00 00 00 01 CC` rewrites to
`00 00 00 02 AA BB 00 00 00 01 CC`. -/
theorem convert_wellformed_ok_witness :
    wellFormed [[170, 187], [204]] ∧
    h265_convert_byte_stream_to_hvc [0, 0, 0, 1, 170, 187, 0, 0, 0, 1, 204] =
      ConvertResult.ok [0, 0, 0, 2, 170, 187, 0, 0, 0, 1, 204] := by
  constructor
  · decide
  · have h := (convert_wellformed_ok [[170, 187], [204]] (by decide)).1
    have e1 : byteStream [[170, 187], [204]] =
        [0, 0, 0, 1, 170, 187, 0, 0, 0, 1, 204] := rfl
    have e2 : hvcStream [[170, 187], [204]] =
        [0, 0, 0, 2, 170, 187, 0, 0, 0, 1, 204] := rfl
    rw [e1, e2] at h
    exact h

/-! ## Scanner safety bounds -/

theorem findNext_le :
    ∀ (l : List Nat) (flag cur cur' f : Nat),
      findNext flag cur l = some (cur', f) → cur' ≤ cur + l.length
  | [], _, _, _, _, h => by simp [findNext] at h
  | b :: bs, flag, cur, cur', f, h => by
    rw [findNext] at h
    by_cases hm : stepFlag flag b % 16777216 = 1
    · rw [if_pos hm] at h
      simp only [Option.some.injEq, Prod.mk.injEq] at h
      simp only [List.length_cons]
      omega
    · rw [if_neg hm] at h
      have hrec := findNext_le bs _ _ _ _ h
      simp only [List.length_cons]
      omega

theorem nal_start_len_le (buf : List Nat) (h : 3 ≤ buf.length) :
    nal_start_len buf ≤ buf.length := by
  unfold nal_start_len
  split_ifs with h1 h2 h3 <;> omega

/-! ## Claim theorems: scanner and rewriter -/

/-- C9: whenever the scanner returns a unit for a buffer of length `len`,
the reported unit lies entirely within the input region: `unit_start ≤ len`
(offsets are nonnegative by construction), `unit_size ≤ len`, and
`unit_start + unit_size ≤ len`. -/
theorem scanner_bounds (buf : List Nat) (ns sz : Nat)
    (h : h265_byte_stream_next_nal buf = some (ns, sz)) :
    ns ≤ buf.length ∧ sz ≤ buf.length ∧ ns + sz ≤ buf.length := by
  unfold h265_byte_stream_next_nal at h
  by_cases h3 : buf.length < 3
  · rw [if_pos h3] at h
    by_cases h0 : buf.length = 0
    · rw [if_pos h0] at h
      simp at h
    · rw [if_neg h0] at h
      simp only [Option.some.injEq, Prod.mk.injEq] at h
      omega
  · rw [if_neg h3] at h
    have hnsl : nal_start_len buf ≤ buf.length := nal_start_len_le buf (by omega)
    cases hf : findNext 4294967295 (nal_start_len buf) (buf.drop (nal_start_len buf)) with
    | none =>
      rw [hf] at h
      dsimp only at h
      by_cases hle : buf.length ≤ nal_start_len buf
      · rw [if_pos hle] at h
        exact Option.noConfusion h
      · rw [if_neg hle] at h
        simp only [Option.some.injEq, Prod.mk.injEq] at h
        omega
    | some cf =>
      rcases cf with ⟨cur, f⟩
      rw [hf] at h
      dsimp only at h
      have hcur : cur ≤ nal_start_len buf + (buf.drop (nal_start_len buf)).length :=
        findNext_le _ _ _ _ _ hf
      rw [List.length_drop] at hcur
      by_cases hc1 : buf.length ≤ cur
      · rw [if_pos hc1] at h
        by_cases hc2 : buf.length ≤ nal_start_len buf
        · rw [if_pos hc2] at h
          exact Option.noConfusion h
        · rw [if_neg hc2] at h
          simp only [Option.some.injEq, Prod.mk.injEq] at h
          omega
      · rw [if_neg hc1] at h
        by_cases hf1 : f = 1
        · rw [if_pos hf1] at h
          simp only [Option.some.injEq, Prod.mk.injEq] at h
          omega
        · rw [if_neg hf1] at h
          simp only [Option.some.injEq, Prod.mk.injEq] at h
          omega

/-- Witness for C9 at the concrete buffer `00 00 00 01 AA`. -/
theorem scanner_bounds_witness :
    h265_byte_stream_next_nal [0, 0, 0, 1, 170] = some (4, 1) ∧
    (4 ≤ ([0, 0, 0, 1, 170] : List Nat).length ∧
      1 ≤ ([0, 0, 0, 1, 170] : List Nat).length ∧
      4 + 1 ≤ ([0, 0, 0, 1, 170] : List Nat).length) :=
  ⟨by decide, scanner_bounds [0, 0, 0, 1, 170] 4 1 (by decide)⟩

/-- C10: each rewrite-loop iteration either reports a zero-size unit (and
the loop returns failure) or advances the cursor past the unit's payload,
strictly shrinking the remaining region; the embedded loop's recursion is
well-founded on exactly this measure. -/
theorem rewrite_progress (buf : List Nat) (ns sz : Nat)
    (h : h265_byte_stream_next_nal buf = some (ns, sz)) :
    sz = 0 ∨ (buf.drop (ns + sz)).length < buf.length := by
  by_cases hz : sz = 0
  · exact Or.inl hz
  · refine Or.inr ?_
    have hne : buf ≠ [] := by
      intro e
      rw [e, nextNal_nil] at h
      exact Option.noConfusion h
    have h1 : 0 < buf.length := List.length_pos.mpr hne
    rw [List.length_drop]
    omega

/-- Witness for C10 at the concrete buffer `00 00 00 01 BB`. -/
theorem rewrite_progress_witness :
    h265_byte_stream_next_nal [0, 0, 0, 1, 187] = some (4, 1) ∧
    (1 = 0 ∨ (([0, 0, 0, 1, 187] : List Nat).drop (4 + 1)).length <
      ([0, 0, 0, 1, 187] : List Nat).length) :=
  ⟨by decide, rewrite_progress [0, 0, 0, 1, 187] 4 1 (by decide)⟩

/-- C5: if the scanner reports a unit of size zero on the (remaining)
buffer, the rewrite returns the `InvalidBitstream` failure (`goto error`,
FALSE) and never success; since each loop iteration runs on the remaining
region, this covers any iteration of the rewrite. -/
theorem rewrite_zero_size_invalid (buf : List Nat) (ns : Nat)
    (h : h265_byte_stream_next_nal buf = some (ns, 0)) :
    h265_convert_byte_stream_to_hvc buf = ConvertResult.invalidBitstream := by
  have hne : buf ≠ [] := by
    intro e
    rw [e, nextNal_nil] at h
    exact Option.noConfusion h
  unfold h265_convert_byte_stream_to_hvc
  cases hl : buf.length with
  | zero => exact absurd (List.length_eq_zero.mp hl) hne
  | succ n =>
    unfold convertLoop
    rw [h]
    dsimp only
    rw [if_pos rfl]

/-- Witness for C5: the buffer `00 00 01 00 00 01 AA` makes the scanner
report a zero-size first unit, and the rewrite fails. -/
theorem rewrite_zero_size_invalid_witness :
    h265_byte_stream_next_nal [0, 0, 1, 0, 0, 1, 170] = some (3, 0) ∧
    h265_convert_byte_stream_to_hvc [0, 0, 1, 0, 0, 1, 170] =
      ConvertResult.invalidBitstream :=
  ⟨by decide, rewrite_zero_size_invalid [0, 0, 1, 0, 0, 1, 170] 3 (by decide)⟩

/-- C4 counterexample: on the spec's mixed-start-code buffer
`00 00 01 AA 00 00 00 01 BB CC DD` the rewrite does not return the
`InvalidBitstream` failure code; it trips the glib assertion
`g_assert (nal_body - nal_start_code == 4)` (program abort), a different
outcome from the FALSE-returning error path. -/
theorem rewrite_mixed_codes_cex :
    h265_convert_byte_stream_to_hvc [0, 0, 1, 170, 0, 0, 0, 1, 187, 204, 221] =
      ConvertResult.assertViolation ∧
    ConvertResult.assertViolation ≠ ConvertResult.invalidBitstream := by
  exact ⟨by decide, by decide⟩

/-- C4 (amended): when the scanner reports a nonzero-size unit whose
payload does not begin exactly 4 bytes after the cursor, the rewrite does
not succeed and does not return `InvalidBitstream`: it aborts on the
offset assertion. -/
theorem rewrite_offset_asserts (buf : List Nat) (ns sz : Nat)
    (h : h265_byte_stream_next_nal buf = some (ns, sz)) (hsz : sz ≠ 0)
    (hns : ns ≠ 4) :
    h265_convert_byte_stream_to_hvc buf = ConvertResult.assertViolation := by
  have hne : buf ≠ [] := by
    intro e
    rw [e, nextNal_nil] at h
    exact Option.noConfusion h
  unfold h265_convert_byte_stream_to_hvc
  cases hl : buf.length with
  | zero => exact absurd (List.length_eq_zero.mp hl) hne
  | succ n =>
    unfold convertLoop
    rw [h]
    dsimp only
    rw [if_neg hsz, if_neg hns]

/-- Witness for the amended C4 at the mixed-start-code buffer. -/
theorem rewrite_offset_asserts_witness :
    h265_byte_stream_next_nal [0, 0, 1, 170, 0, 0, 0, 1, 187, 204, 221] =
      some (3, 1) ∧ (1 : Nat) ≠ 0 ∧ (3 : Nat) ≠ 4 ∧
    h265_convert_byte_stream_to_hvc [0, 0, 1, 170, 0, 0, 0, 1, 187, 204, 221] =
      ConvertResult.assertViolation :=
  ⟨by decide, by decide, by decide,
    rewrite_offset_asserts [0, 0, 1, 170, 0, 0, 0, 1, 187, 204, 221] 3 1
      (by decide) (by decide) (by decide)⟩

/-- C6 counterexample: on a zero-length input the scanner does not return
the whole buffer as a unit (`some (0, 0)`); past the entry assertion
`g_assert (len != 0U ...)` it returns NULL (`none`). -/
theorem scanner_len0_cex :
    h265_byte_stream_next_nal [] = none ∧
    (none : Option (Nat × Nat)) ≠ some (0, 0) := by decide

/-- C6 (amended): for input lengths 1 and 2 the scanner returns the whole
buffer as a single unit, `unit_start` at the base and `unit_size` the input
length; length 0 instead reports no unit (and is excluded by the entry
assertion). -/
theorem scanner_short_input (buf : List Nat)
    (h : buf.length = 1 ∨ buf.length = 2) :
    h265_byte_stream_next_nal buf = some (0, buf.length) := by
  rcases buf with _ | ⟨a, _ | ⟨b, _ | ⟨c, t⟩⟩⟩
  · simp at h
  · rfl
  · rfl
  · simp only [List.length_cons] at h
    omega

/-- Witness for the amended C6 at the one-byte buffer `[7]`. -/
theorem scanner_short_input_witness :
    (([7] : List Nat).length = 1 ∨ ([7] : List Nat).length = 2) ∧
    h265_byte_stream_next_nal [7] = some (0, ([7] : List Nat).length) :=
  ⟨Or.inl (by decide), scanner_short_input [7] (Or.inl (by decide))⟩

/-- C7: a buffer whose recognized leading start code consumes all remaining
bytes (exactly `00 00 01`, or exactly `00 00 00 01` — the only such
buffers) reports "no unit found" rather than a zero-size unit. -/
theorem scanner_bare_code_none :
    h265_byte_stream_next_nal [0, 0, 1] = none ∧
    h265_byte_stream_next_nal [0, 0, 0, 1] = none := by decide

/-- C3 counterexample: in `00 00 01 AA 00 00 01` the next start code's
final byte is the last byte of the buffer; the claim predicts
`unit_size = 1` (cursor 7, minus 3, minus `unit_start` 3), but the
post-loop `if (cur >= end)` clause overwrites `nal_size` with
`end - nal_start = 4`. -/
theorem scanner_marker_at_end_cex :
    h265_byte_stream_next_nal [0, 0, 1, 170, 0, 0, 1] = some (3, 4) ∧
    (4 : Nat) ≠ 1 := by decide

/-- C3 (amended): when a subsequent start code occurs after the current
unit's payload and does not end at the buffer's last byte, the scanner
reports `unit_size` as the distance from `unit_start` to just before that
start code: scan cursor minus 4 for a `00 00 00 01` window, cursor minus 3
otherwise (for the 3-byte-marker conjunct the payload must not end in a
zero byte, which the window test would fold into a 4-byte marker). -/
theorem scanner_next_marker_size (u v : List Nat) (hb : ∀ b ∈ u, b < 256)
    (hu : u ≠ []) (hc : hasStartCode u = false) (hv : v ≠ []) :
    h265_byte_stream_next_nal (0 :: 0 :: 0 :: 1 :: (u ++ 0 :: 0 :: 0 :: 1 :: v)) =
      some (4, u.length) ∧
    (u.getLast? ≠ some 0 →
      h265_byte_stream_next_nal (0 :: 0 :: 1 :: (u ++ 0 :: 0 :: 1 :: v)) =
        some (3, u.length)) := by
  constructor
  · exact nextNal_mid u v hb hc hv
  · intro hlast
    have hne : u ++ 0 :: 0 :: 1 :: v ≠ [] := by cases u <;> simp
    rw [nextNal_3head _ hne]
    obtain ⟨f, hf, hf1⟩ := findNext_payload3 u v 3 hb hc hu hlast
    rw [hf]
    have hvl : 1 ≤ v.length := by
      cases v with
      | nil => exact absurd rfl hv
      | cons x t => simp
    have hlen : (u ++ 0 :: 0 :: 1 :: v).length = u.length + v.length + 3 := by
      simp only [List.length_append, List.length_cons]
      omega
    rw [hlen]
    dsimp only
    rw [if_neg (by omega), if_neg hf1]
    have he : 3 + u.length + 3 - 3 - 3 = u.length := by omega
    rw [he]

/-- Witness for the amended C3 with payload `AA` and follow-on `CC`. -/
theorem scanner_next_marker_size_witness :
    (∀ b ∈ ([170] : List Nat), b < 256) ∧ ([170] : List Nat) ≠ [] ∧
    hasStartCode [170] = false ∧ ([204] : List Nat) ≠ [] ∧
    (h265_byte_stream_next_nal
        (0 :: 0 :: 0 :: 1 :: ([170] ++ 0 :: 0 :: 0 :: 1 :: [204])) =
      some (4, ([170] : List Nat).length) ∧
    (([170] : List Nat).getLast? ≠ some 0 →
      h265_byte_stream_next_nal (0 :: 0 :: 1 :: ([170] ++ 0 :: 0 :: 1 :: [204])) =
        some (3, ([170] : List Nat).length))) :=
  ⟨by decide, by decide, by decide, by decide,
    scanner_next_marker_size [170] [204] (by decide) (by decide) (by decide)
      (by decide)⟩

/-! ## Claim theorems: profile selector -/

/-- C2 counterexample: on candidates with ranks `[5, 5, 3]` the selector
returns the second rank-5 candidate (profile 2), not the first (profile 1):
the source keeps the running best only when `score < best_score`, so an
equal rank overwrites it. -/
theorem selector_tie_cex :
    find_best_profile sampleIdentify sampleScore
      [⟨some (GVal.vlist [GVal.vstr (some "a"), GVal.vstr (some "b"),
        GVal.vstr (some "c")])⟩] = 2 ∧ (2 : Nat) ≠ 1 :=
  ⟨by decide, by decide⟩

theorem bestData_append (identify : String → Nat) (score : Nat → Nat)
    (caps : List CapsStruct) (st : CapsStruct) :
    bestData identify score (caps ++ [st]) =
      bestStep identify score (bestData identify score caps) st := by
  unfold bestData
  rw [List.foldl_append]
  rfl

/-- C2 (amended): the selector overwrites its running best whenever a
resolved candidate's rank is greater than *or equal to* the best rank, so
on equal ranks the later-seen candidate wins: appending a resolvable
candidate whose rank is at least the running best makes it the selected
profile. -/
theorem selector_ge_overrides (identify : String → Nat) (score : Nat → Nat)
    (caps : List CapsStruct) (s : String) (h1 : identify s ≠ 0)
    (h2 : (bestData identify score caps).best_score ≤ score (identify s)) :
    find_best_profile identify score (caps ++ [⟨some (GVal.vstr (some s))⟩]) =
      identify s := by
  unfold find_best_profile
  rw [bestData_append]
  unfold bestStep
  dsimp only
  unfold find_best_profile_value
  dsimp only
  rw [if_neg h1, if_neg (by omega)]

/-- Witness for the amended C2: after a rank-5 candidate (`"a"`), the
equally ranked `"b"` takes over, so the selector returns profile 2. -/
theorem selector_ge_overrides_witness :
    sampleIdentify "b" ≠ 0 ∧
    (bestData sampleIdentify sampleScore
        [⟨some (GVal.vstr (some "a"))⟩]).best_score ≤
      sampleScore (sampleIdentify "b") ∧
    find_best_profile sampleIdentify sampleScore
        ([⟨some (GVal.vstr (some "a"))⟩] ++ [⟨some (GVal.vstr (some "b"))⟩]) =
      sampleIdentify "b" :=
  ⟨by decide, by decide,
    selector_ge_overrides sampleIdentify sampleScore
      [⟨some (GVal.vstr (some "a"))⟩] "b" (by decide) (by decide)⟩

theorem foldl_values_skip (identify : String → Nat) (score : Nat → Nat) :
    ∀ (vs : List GVal) (d : FindBestProfileData),
      (∀ v ∈ vs, ∀ s, v = GVal.vstr (some s) → identify s = 0) →
      vs.foldl (fun d v => find_best_profile_value identify score d (some v)) d = d
  | [], _, _ => rfl
  | v :: vs, d, h => by
    have hstep : find_best_profile_value identify score d (some v) = d := by
      cases v with
      | vstr os =>
        cases os with
        | none => rfl
        | some s =>
          have hz := h (GVal.vstr (some s)) (List.mem_cons_self _ _) s rfl
          unfold find_best_profile_value
          dsimp only
          rw [if_pos hz]
      | vlist l => rfl
      | vother => rfl
    rw [List.foldl_cons, hstep]
    exact foldl_values_skip identify score vs d
      (fun w hw => h w (List.mem_cons_of_mem _ hw))

theorem bestStep_skip (identify : String → Nat) (score : Nat → Nat)
    (d : FindBestProfileData) (st : CapsStruct)
    (h : ∀ s ∈ candidateStrings st, identify s = 0) :
    bestStep identify score d st = d := by
  unfold bestStep
  cases hp : st.profile with
  | none => rfl
  | some v =>
    cases v with
    | vstr os =>
      cases os with
      | none => rfl
      | some s =>
        have hz : identify s = 0 := h s (by simp [candidateStrings, hp])
        unfold find_best_profile_value
        dsimp only
        rw [if_pos hz]
    | vlist vs =>
      dsimp only
      apply foldl_values_skip
      intro v hv s hveq
      apply h s
      simp only [candidateStrings, hp]
      exact List.mem_filterMap.mpr ⟨v, hv, by rw [hveq]⟩
    | vother => rfl

theorem foldl_caps_skip (identify : String → Nat) (score : Nat → Nat) :
    ∀ (caps : List CapsStruct) (d : FindBestProfileData),
      (∀ st ∈ caps, ∀ s ∈ candidateStrings st, identify s = 0) →
      caps.foldl (bestStep identify score) d = d
  | [], _, _ => rfl
  | st :: caps, d, h => by
    rw [List.foldl_cons, bestStep_skip _ _ _ _ (h st (List.mem_cons_self _ _))]
    exact foldl_caps_skip identify score caps d
      (fun st' h' => h st' (List.mem_cons_of_mem _ h'))

/-- C8: the selector is total and returns the unknown profile (`0`) when no
structure contributes a resolvable profile string — in particular for an
empty caps list, for structures without a profile field, and when every
candidate string is unresolvable; unresolvable strings are skipped without
affecting the accumulator. -/
theorem selector_unresolvable_none (identify : String → Nat) (score : Nat → Nat)
    (caps : List CapsStruct)
    (h : ∀ st ∈ caps, ∀ s ∈ candidateStrings st, identify s = 0) :
    find_best_profile identify score caps = 0 := by
  unfold find_best_profile bestData
  rw [foldl_caps_skip identify score caps _ h]

/-- Witness for C8: a structure without a profile field plus one with only
an unresolvable string still yields the unknown profile. -/
theorem selector_unresolvable_none_witness :
    (∀ st ∈ ([⟨none⟩, ⟨some (GVal.vstr (some "bogus"))⟩] : List CapsStruct),
      ∀ s ∈ candidateStrings st, (fun _ : String => (0 : Nat)) s = 0) ∧
    find_best_profile (fun _ => 0) (fun pr => pr)
      [⟨none⟩, ⟨some (GVal.vstr (some "bogus"))⟩] = 0 :=
  ⟨fun _ _ _ _ => rfl,
    selector_unresolvable_none (fun _ => 0) (fun pr => pr)
      [⟨none⟩, ⟨some (GVal.vstr (some "bogus"))⟩] (fun _ _ _ _ => rfl)⟩

end GstVaapiEncH265
